import Mathlib

/-!
Verification of the objaverse-rendering pipeline scripts.

Shallow embedding of:
  - scripts/download_objaverse.py  (URL batching, render-completion scan)
  - scripts/subset_lists.py        (train/test split)
  - scripts/Discarded/simple_filter.py (catalog quality filter)
  - scripts/blender_script.py      (multi-view camera pipeline)

File-system effects are modelled as explicit lists of file names; the
Blender host tool's rendering itself is external, but every file name,
counter, camera angle and intrinsics computation below is transcribed
from the Python source.
-/

namespace ObjaverseRendering

/-! ### scripts/download_objaverse.py — `create_download_list` (lines 44-57)

The Python loop is `for i in range(0, len(download_urls), batch_size)`,
i.e. it visits exactly the multiples of `batch_size` below
`len(download_urls)`, and for each start index `i` writes the slice
`download_urls[i:i + batch_size]` to the file indexed `i // batch_size`.
We model `range(0, n, B)` (for `B > 0`) as the increasing list of
multiples of `B` below `n`. -/

/-- Start indices visited by `range(0, n, B)`: multiples of `B` below `n`. -/
def batch_starts (n B : ℕ) : List ℕ :=
  (List.range n).filter (fun i => i % B = 0)

/-- Python slice `urls[i : i + B]`. -/
def py_slice (urls : List String) (i B : ℕ) : List String :=
  (urls.drop i).take B

/-- The batch files written by `create_download_list`: one
`(batch index, contents)` pair per loop iteration, where the index is
`i // batch_size` and the contents are `download_urls[i:i+batch_size]`. -/
def create_download_batches (urls : List String) (B : ℕ) : List (ℕ × List String) :=
  (batch_starts urls.length B).map (fun i => (i / B, py_slice urls i B))

/-- Just the batch contents, in batch-index order. -/
def batch_contents (urls : List String) (B : ℕ) : List (List String) :=
  (create_download_batches urls B).map Prod.snd

/-- The batch-count figure printed at the end of `create_download_list`
(line 57): `len(download_urls)//batch_size + 1`. -/
def printed_batch_count (n B : ℕ) : ℕ := n / B + 1

/-! Arithmetic bridge: for `B > 0` the start indices are
`[0, B, 2B, …]` with exactly `⌈n/B⌉ = (n + B - 1)/B` entries. -/

theorem batch_starts_eq (n B : ℕ) (hB : 0 < B) :
    batch_starts n B = (List.range ((n + B - 1) / B)).map (· * B) := by
  induction n with
  | zero =>
      have h : (B - 1) / B = 0 := Nat.div_eq_of_lt (by omega)
      simp [batch_starts, h]
  | succ n ih =>
      unfold batch_starts at *
      rw [List.range_succ, List.filter_append, ih]
      by_cases hdvd : n % B = 0
      · -- n is a multiple of B: the new index n is kept and the quotient grows by 1
        obtain ⟨q, hq⟩ := Nat.dvd_of_mod_eq_zero hdvd
        have h1 : (n + B - 1) / B = q := by
          subst hq
          rw [show B * q + B - 1 = B * q + (B - 1) by omega, Nat.mul_add_div hB,
            Nat.div_eq_of_lt (show B - 1 < B by omega)]
          omega
        have h2 : (n + 1 + B - 1) / B = q + 1 := by
          subst hq
          have hx : B * (q + 1) = B * q + B := by ring
          rw [show B * q + 1 + B - 1 = B * (q + 1) by omega,
            Nat.mul_div_cancel_left _ hB]
        rw [h1, h2, List.range_succ, List.map_append]
        simp [List.filter_cons, hdvd, hq, Nat.mul_comm]
      · -- n is not a multiple of B: no new index, quotient unchanged
        have h1 : (n + 1 + B - 1) / B = (n + B - 1) / B := by
          have hn : 0 < n % B := Nat.pos_of_ne_zero hdvd
          have hBn : n % B < B := Nat.mod_lt _ hB
          have hdm := Nat.div_add_mod n B
          have hx : B * (n / B + 1) = B * (n / B) + B := by ring
          have e1 : n + B - 1 = B * (n / B + 1) + (n % B - 1) := by omega
          have e2 : n + 1 + B - 1 = B * (n / B + 1) + n % B := by omega
          rw [e1, e2, Nat.mul_add_div hB, Nat.mul_add_div hB,
            Nat.div_eq_of_lt (show n % B < B from hBn),
            Nat.div_eq_of_lt (show n % B - 1 < B by omega)]
        rw [h1]
        simp [List.filter_cons, hdvd]

theorem py_slice_zero (urls : List String) (B : ℕ) :
    py_slice urls 0 B = urls.take B := by
  simp [py_slice]

theorem py_slice_shift (urls : List String) (j B : ℕ) :
    py_slice urls ((j + 1) * B) B = py_slice (urls.drop B) (j * B) B := by
  unfold py_slice
  rw [List.drop_drop]
  congr 2
  ring

/-- Concatenating the slices at starts `0, B, …, (q-1)·B` recovers the list,
provided `q` batches suffice to cover it. -/
theorem flatten_slices (B : ℕ) :
    ∀ (q : ℕ) (urls : List String), urls.length ≤ q * B →
      ((List.range q).map (fun j => py_slice urls (j * B) B)).flatten = urls := by
  intro q
  induction q with
  | zero =>
      intro urls h
      simp only [Nat.zero_mul, Nat.le_zero, List.length_eq_zero] at h
      simp [h]
  | succ q ih =>
      intro urls h
      rw [List.range_succ_eq_map]
      simp only [List.map_cons, List.map_map, List.flatten_cons]
      have hcomp : ((fun j => py_slice urls (j * B) B) ∘ Nat.succ)
          = fun j => py_slice (urls.drop B) (j * B) B := by
        funext j
        show py_slice urls ((j + 1) * B) B = _
        exact py_slice_shift urls j B
      have hlen : (urls.drop B).length ≤ q * B := by
        have hx : (q + 1) * B = q * B + B := by ring
        rw [List.length_drop]
        omega
      rw [hcomp, ih (urls.drop B) hlen]
      simp [py_slice_zero]

theorem batch_contents_eq (urls : List String) (B : ℕ) (hB : 0 < B) :
    batch_contents urls B
      = (List.range ((urls.length + B - 1) / B)).map
          (fun j => py_slice urls (j * B) B) := by
  unfold batch_contents create_download_batches
  rw [batch_starts_eq _ _ hB, List.map_map, List.map_map]
  rfl

theorem length_le_ceil_mul (n B : ℕ) (hB : 0 < B) :
    n ≤ (n + B - 1) / B * B := by
  have hdm := Nat.div_add_mod (n + B - 1) B
  have hmod := Nat.mod_lt (n + B - 1) hB
  have hx : (n + B - 1) / B * B = B * ((n + B - 1) / B) := by ring
  omega

/-- C2 sentence, stated over the embedded batcher: the batch files are a
partition of the URL list into contiguous slices: their concatenation in
batch-index order is the original list, every batch has length ≤ B, and
every batch except possibly the last has length exactly B. -/
theorem batcher_partitions_urls (urls : List String) (B : ℕ) (hB : 0 < B) :
    (batch_contents urls B).flatten = urls ∧
    (∀ b ∈ batch_contents urls B, b.length ≤ B) ∧
    (∀ j : ℕ, j + 1 < (batch_contents urls B).length →
      ((batch_contents urls B).getD j []).length = B) := by
  have hq := batch_contents_eq urls B hB
  set n := urls.length with hn
  set q := (n + B - 1) / B with hqdef
  refine ⟨?_, ?_, ?_⟩
  · rw [hq]
    exact flatten_slices B q urls (length_le_ceil_mul n B hB)
  · intro b hb
    rw [hq] at hb
    obtain ⟨j, _, rfl⟩ := List.mem_map.mp hb
    unfold py_slice
    rw [List.length_take]
    exact min_le_left _ _
  · intro j hj
    have hlen : (batch_contents urls B).length = q := by
      rw [hq, List.length_map, List.length_range]
    rw [hlen] at hj
    have hget : (batch_contents urls B).getD j [] = py_slice urls (j * B) B := by
      rw [hq, List.getD_eq_getElem?_getD, List.getElem?_map,
        List.getElem?_range (by omega : j < q)]
      rfl
    rw [hget]
    unfold py_slice
    rw [List.length_take, List.length_drop]
    -- (j+1)·B ≤ n because j is not the last batch index
    have h1 : q * B ≤ n + B - 1 := Nat.div_mul_le_self _ _
    have h2 : (j + 1) * B ≤ (q - 1) * B := Nat.mul_le_mul_right _ (by omega)
    have e : q - 1 + 1 = q := by omega
    have h3 : q * B = (q - 1) * B + B := by
      conv_lhs => rw [← e]
      ring
    have h4 : (j + 1) * B = j * B + B := by ring
    omega

/-- C2 witness: the partition property evaluated on a concrete URL list
with batch size 2. -/
theorem batcher_partitions_urls_witness :
    (batch_contents ["a", "b", "c"] 2).flatten = ["a", "b", "c"] ∧
    (∀ b ∈ batch_contents ["a", "b", "c"] 2, b.length ≤ 2) ∧
    (∀ j : ℕ, j + 1 < (batch_contents ["a", "b", "c"] 2).length →
      ((batch_contents ["a", "b", "c"] 2).getD j []).length = 2) :=
  batcher_partitions_urls ["a", "b", "c"] 2 (by decide)

/-- C10 sentence: `create_download_list` writes exactly ⌈n/B⌉ batch files
(`(n + B - 1)/B` in natural arithmetic), zero files when the URL list is
empty, named by consecutive batch indices `i // B = 0, 1, …`; the figure
printed in its summary (`n // B + 1`) is computed separately and can
disagree (it prints 1 even for an empty list). -/
theorem create_download_list_file_count (urls : List String) (B : ℕ) (hB : 0 < B) :
    (create_download_batches urls B).length = (urls.length + B - 1) / B ∧
    (create_download_batches urls B).map Prod.fst
      = List.range ((urls.length + B - 1) / B) ∧
    (urls = [] → create_download_batches urls B = []) ∧
    printed_batch_count 0 B = 1 := by
  have hstarts := batch_starts_eq urls.length B hB
  refine ⟨?_, ?_, ?_, by simp [printed_batch_count]⟩
  · unfold create_download_batches
    rw [hstarts, List.length_map, List.length_map, List.length_range]
  · unfold create_download_batches
    rw [hstarts, List.map_map, List.map_map]
    have hcomp : ((Prod.fst ∘ fun i => ((i / B : ℕ), py_slice urls i B)) ∘ fun x : ℕ => x * B)
        = fun j : ℕ => j := by
      funext j
      show j * B / B = j
      rw [Nat.mul_comm, Nat.mul_div_cancel_left _ hB]
    rw [hcomp]
    simp
  · intro h
    subst h
    have h0 : (0 + B - 1) / B = 0 := Nat.div_eq_of_lt (by omega)
    unfold create_download_batches
    rw [hstarts]
    simp only [List.length_nil] at h0 ⊢
    rw [h0]
    simp

/-- C10 witness: three URLs at batch size 2 give two batch files with
indices `[0, 1]`. -/
theorem create_download_list_file_count_witness :
    (create_download_batches ["a", "b", "c"] 2).length
      = ((["a", "b", "c"] : List String).length + 2 - 1) / 2 ∧
    (create_download_batches ["a", "b", "c"] 2).map Prod.fst
      = List.range (((["a", "b", "c"] : List String).length + 2 - 1) / 2) ∧
    (["a", "b", "c"] = ([] : List String) →
      create_download_batches ["a", "b", "c"] 2 = []) ∧
    printed_batch_count 0 2 = 1 :=
  create_download_list_file_count ["a", "b", "c"] 2 (by decide)

/-! ### scripts/subset_lists.py — train/test split (lines 11-24)

`random.shuffle` (seeded with 42) permutes the directory listing in place;
we quantify over an arbitrary permutation `shuffled` of the input
universe.  The split index is `int(len(all_uids) * 0.9)` computed in
IEEE-754 double precision: the literal `0.9` denotes the double
`8106479329266893 / 2^53` (= 0.90000000000000002220…), the count `n`
converts to a double exactly (every count below `2^53` does), the product
is rounded once to the nearest double with ties to even, and `int()` of
the non-negative result truncates, i.e. takes the floor. -/

/-- Round a rational to the nearest integer, ties to even — IEEE-754's
default rounding applied at integer granularity. -/
def round_half_even (y : ℚ) : ℤ :=
  if y - ⌊y⌋ < 1 / 2 then ⌊y⌋
  else if 1 / 2 < y - ⌊y⌋ then ⌊y⌋ + 1
  else if ⌊y⌋ % 2 = 0 then ⌊y⌋ else ⌊y⌋ + 1

/-- Round a positive rational to the nearest IEEE-754 double (round to
nearest, ties to even): a value in `[2^t, 2^(t+1))`, `t = ⌊log₂ x⌋`, is
rounded onto the grid of spacing `2^(t-52)` (53-bit significand).  Valid
on the normal, non-overflowing range, which covers every product arising
here; `0` (itself a double) is returned unchanged. -/
def rn_double (x : ℚ) : ℚ :=
  if x ≤ 0 then 0
  else (round_half_even (x * 2 ^ (52 - Int.log 2 x)) : ℚ) * 2 ^ (Int.log 2 x - 52)

/-- `split_idx = int(len(all_uids) * 0.9)`: the floor of the
double-precision product of the count with the double `0.9`. -/
def split_idx (n : ℕ) : ℕ :=
  (⌊rn_double ((n : ℚ) * 8106479329266893 / 2 ^ 53)⌋).toNat

/-- `train_uids = all_uids[:split_idx]` (after the seeded shuffle). -/
def train_uids (shuffled : List String) : List String :=
  shuffled.take (split_idx shuffled.length)

/-- `test_uids = all_uids[split_idx:]` (after the seeded shuffle). -/
def test_uids (shuffled : List String) : List String :=
  shuffled.drop (split_idx shuffled.length)

theorem round_half_even_ge_floor (y : ℚ) : ⌊y⌋ ≤ round_half_even y := by
  unfold round_half_even
  split_ifs <;> omega

theorem round_half_even_le_add_half (y : ℚ) :
    (round_half_even y : ℚ) ≤ y + 1 / 2 := by
  have h1 := Int.floor_le y
  unfold round_half_even
  split_ifs with ha hb hc
  · linarith
  · push_cast
    linarith
  · linarith
  · push_cast
    have h2 := not_lt.mp ha
    linarith

/-- Rounding to the nearest double never drops below an integer bound:
an integer `k ≤ x` is on the rounding grid (granularity `2^(t-52)` with
`t ≤ 52`), so the rounded value stays `≥ k`. -/
theorem rn_double_ge_int (x : ℚ) (k : ℤ) (hxpos : 0 < x)
    (hlog : Int.log 2 x ≤ 52) (hk : (k : ℚ) ≤ x) : (k : ℚ) ≤ rn_double x := by
  unfold rn_double
  rw [if_neg (not_le.mpr hxpos)]
  set t := Int.log 2 x with ht
  set s : ℕ := (52 - t).toNat with hs
  have hs' : (52 - t : ℤ) = (s : ℤ) := (Int.toNat_of_nonneg (by omega)).symm
  have hy : x * (2 : ℚ) ^ (52 - t) = x * (2 : ℚ) ^ (s : ℕ) := by
    rw [hs', zpow_natCast]
  have hpow1 : (2 : ℚ) ^ (s : ℕ) * (2 : ℚ) ^ (t - 52) = 1 := by
    rw [← zpow_natCast (2 : ℚ) s, ← zpow_add₀ (two_ne_zero),
      show (s : ℤ) + (t - 52) = 0 by omega, zpow_zero]
  have h1 : (k * 2 ^ s : ℤ) ≤ ⌊x * (2 : ℚ) ^ (52 - t)⌋ := by
    rw [hy]
    apply Int.le_floor.mpr
    push_cast
    exact mul_le_mul_of_nonneg_right hk (by positivity)
  have h3 : (k * 2 ^ s : ℤ) ≤ round_half_even (x * (2 : ℚ) ^ (52 - t)) :=
    le_trans h1 (round_half_even_ge_floor _)
  have h4 : ((k * 2 ^ s : ℤ) : ℚ) * (2 : ℚ) ^ (t - 52)
      ≤ (round_half_even (x * (2 : ℚ) ^ (52 - t)) : ℚ) * (2 : ℚ) ^ (t - 52) := by
    apply mul_le_mul_of_nonneg_right _ (by positivity)
    exact_mod_cast h3
  have hfinal : ((k * 2 ^ s : ℤ) : ℚ) * (2 : ℚ) ^ (t - 52) = (k : ℚ) := by
    push_cast
    rw [mul_assoc, hpow1, mul_one]
  rw [← hfinal]
  exact h4

/-- Rounding to the nearest double adds at most half an ulp,
`2^(t-53)` for a value with `⌊log₂ x⌋ = t`. -/
theorem rn_double_le_half_ulp (x : ℚ) (hxpos : 0 < x) :
    rn_double x ≤ x + (2 : ℚ) ^ (Int.log 2 x - 53) := by
  unfold rn_double
  rw [if_neg (not_le.mpr hxpos)]
  set t := Int.log 2 x with ht
  have h1 := round_half_even_le_add_half (x * (2 : ℚ) ^ (52 - t))
  have h2 : (round_half_even (x * (2 : ℚ) ^ (52 - t)) : ℚ) * (2 : ℚ) ^ (t - 52)
      ≤ (x * (2 : ℚ) ^ (52 - t) + 1 / 2) * (2 : ℚ) ^ (t - 52) :=
    mul_le_mul_of_nonneg_right h1 (by positivity)
  have h3 : (x * (2 : ℚ) ^ (52 - t) + 1 / 2) * (2 : ℚ) ^ (t - 52)
      = x + (2 : ℚ) ^ (t - 53) := by
    have ha : (2 : ℚ) ^ (52 - t) * (2 : ℚ) ^ (t - 52) = 1 := by
      rw [← zpow_add₀ (two_ne_zero), show (52 - t) + (t - 52) = 0 by omega, zpow_zero]
    have hb : (1 / 2 : ℚ) * (2 : ℚ) ^ (t - 52) = (2 : ℚ) ^ (t - 53) := by
      rw [show (1 : ℚ) / 2 = (2 : ℚ) ^ (-1 : ℤ) by norm_num,
        ← zpow_add₀ (two_ne_zero), show (-1 : ℤ) + (t - 52) = t - 53 by omega]
    calc (x * (2 : ℚ) ^ (52 - t) + 1 / 2) * (2 : ℚ) ^ (t - 52)
        = x * ((2 : ℚ) ^ (52 - t) * (2 : ℚ) ^ (t - 52))
          + (1 / 2 : ℚ) * (2 : ℚ) ^ (t - 52) := by ring
      _ = x + (2 : ℚ) ^ (t - 53) := by rw [ha, hb, mul_one]
  rw [h3] at h2
  exact h2

theorem split_lower_nat (n : ℕ) :
    9 * n / 10 * 2 ^ 53 ≤ n * 8106479329266893 := by
  have hp : (2 : ℕ) ^ 53 = 9007199254740992 := by norm_num
  rw [hp]
  omega

theorem split_upper_nat (n : ℕ) (hn : n ≤ 2 ^ 50) :
    40 * (n * 8106479329266893) ≤ (40 * (9 * n / 10) + 37) * 2 ^ 53 := by
  have hp : (2 : ℕ) ^ 53 = 9007199254740992 := by norm_num
  have h50 : (2 : ℕ) ^ 50 = 1125899906842624 := by norm_num
  rw [h50] at hn
  rw [hp]
  omega

theorem prod_lt_nat (n : ℕ) (hn : n ≤ 2 ^ 50) :
    n * 8106479329266893 < 2 ^ 103 := by
  have h50 : (2 : ℕ) ^ 50 = 1125899906842624 := by norm_num
  have h103 : (2 : ℕ) ^ 103 = 10141204801825835211973625643008 := by norm_num
  rw [h50] at hn
  rw [h103]
  omega

/-- For every count up to `2^50` — far beyond any possible directory
listing — the double-precision split index agrees with
`⌊0.9 · n⌋ = 9n/10`: the half-ulp rounding error (≤ 1/16 here) cannot
carry the fractional part (≤ 9/10 + 1/40) across the next integer. -/
theorem split_idx_eq (n : ℕ) (hn : n ≤ 2 ^ 50) : split_idx n = 9 * n / 10 := by
  unfold split_idx
  rcases Nat.eq_zero_or_pos n with rfl | hpos
  · norm_num [rn_double]
  · have hnq : (0 : ℚ) < (n : ℚ) := by exact_mod_cast hpos
    set x : ℚ := (n : ℚ) * 8106479329266893 / 2 ^ 53 with hxdef
    set k : ℕ := 9 * n / 10 with hk
    have hxpos : 0 < x := by
      rw [hxdef]
      positivity
    have hxk : (k : ℚ) ≤ x := by
      rw [hxdef, le_div_iff₀ (by positivity)]
      exact_mod_cast split_lower_nat n
    have hxu : x ≤ (k : ℚ) + 37 / 40 := by
      have h := split_upper_nat n hn
      rw [hxdef, div_le_iff₀ (by positivity)]
      have hq : (40 : ℚ) * ((n : ℚ) * 8106479329266893)
          ≤ (40 * (k : ℚ) + 37) * 2 ^ 53 := by exact_mod_cast h
      linarith
    have hx50 : x < ((2 : ℕ) : ℚ) ^ (50 : ℤ) := by
      have h := prod_lt_nat n hn
      have hq : (n : ℚ) * 8106479329266893 < 2 ^ 103 := by exact_mod_cast h
      rw [hxdef, div_lt_iff₀ (by positivity),
        show ((2 : ℕ) : ℚ) ^ (50 : ℤ) * 2 ^ 53 = 2 ^ 103 by norm_num]
      exact hq
    have hlog : Int.log 2 x ≤ 49 := by
      have := (Int.lt_zpow_iff_log_lt one_lt_two hxpos).mp hx50
      omega
    have hlow : ((k : ℤ) : ℚ) ≤ rn_double x :=
      rn_double_ge_int x (k : ℤ) hxpos (by omega) (by push_cast; exact hxk)
    have hup := rn_double_le_half_ulp x hxpos
    have hulp : (2 : ℚ) ^ (Int.log 2 x - 53) ≤ (2 : ℚ) ^ (-4 : ℤ) :=
      (zpow_le_zpow_iff_right₀ (by norm_num : (1 : ℚ) < 2)).mpr (by omega)
    have h16 : (2 : ℚ) ^ (-4 : ℤ) = 1 / 16 := by norm_num
    have hlt : rn_double x < (k : ℚ) + 1 := by
      rw [h16] at hulp
      linarith
    have hfloor : ⌊rn_double x⌋ = (k : ℤ) :=
      Int.floor_eq_iff.mpr ⟨hlow, by push_cast; linarith⟩
    rw [hfloor]
    exact Int.toNat_natCast k

/-- C3 counterexample: at count `n = 1251799813685251` the claim's split
index `⌊0.9 · n⌋ = 9n/10` is `1126619832316725`, but the program's
double-precision product `n * 0.9` lies at `9n/10 + 0.9278…` where the
double grid spacing is `1/4`, so it rounds up to the next integer:
`int(n * 0.9) = 9n/10 + 1`, and the train list of a universe of that size
has one element more than the claim states. -/
theorem split_at_floor_counterexample :
    split_idx 1251799813685251 = 9 * 1251799813685251 / 10 + 1 ∧
    ¬ split_idx 1251799813685251 = 9 * 1251799813685251 / 10 ∧
    (train_uids (List.replicate 1251799813685251 "u")).length
      = 9 * 1251799813685251 / 10 + 1 := by
  have hx : ((1251799813685251 : ℕ) : ℚ) * 8106479329266893 / 2 ^ 53
      = 10147689314019635151350476695143 / 2 ^ 53 := by norm_num
  have hxpos : (0 : ℚ) < 10147689314019635151350476695143 / 2 ^ 53 := by norm_num
  have hlog : Int.log 2 ((10147689314019635151350476695143 : ℚ) / 2 ^ 53) = 50 := by
    have h1 := (Int.lt_zpow_iff_log_lt one_lt_two hxpos).mp
      (by norm_num :
        ((10147689314019635151350476695143 : ℚ) / 2 ^ 53) < ((2 : ℕ) : ℚ) ^ (51 : ℤ))
    have h2 := (Int.zpow_le_iff_le_log one_lt_two hxpos).mp
      (by norm_num :
        ((2 : ℕ) : ℚ) ^ (50 : ℤ) ≤ ((10147689314019635151350476695143 : ℚ) / 2 ^ 53))
    omega
  have hfl : ⌊((10147689314019635151350476695143 : ℚ) / 2 ^ 51)⌋
      = 4506479329266903 := by
    rw [Int.floor_eq_iff]
    constructor <;> norm_num
  have hrhe : round_half_even ((10147689314019635151350476695143 : ℚ) / 2 ^ 51)
      = 4506479329266904 := by
    unfold round_half_even
    rw [hfl, if_neg (by push_cast; norm_num), if_pos (by push_cast; norm_num)]
    norm_num
  have hrn : rn_double ((10147689314019635151350476695143 : ℚ) / 2 ^ 53)
      = 1126619832316726 := by
    unfold rn_double
    rw [if_neg (not_le.mpr hxpos), hlog,
      show (10147689314019635151350476695143 : ℚ) / 2 ^ 53 * 2 ^ ((52 : ℤ) - 50)
        = 10147689314019635151350476695143 / 2 ^ 51 by norm_num,
      hrhe]
    norm_num
  have hsplit : split_idx 1251799813685251 = 1126619832316726 := by
    unfold split_idx
    rw [hx, hrn]
    norm_num
    rfl
  refine ⟨by rw [hsplit], by rw [hsplit]; norm_num, ?_⟩
  unfold train_uids
  rw [List.length_take, List.length_replicate, hsplit]
  omega

/-- C3 (amended): for every universe of at most `2^50` directories — far
beyond any physically possible listing — the splitter's two lists are
disjoint, their concatenation is the shuffled universe (hence a
permutation of the input universe), the train list has
`⌊0.9 · count⌋ = 9·count/10` elements and the test list the remaining
`count − 9·count/10`; at astronomically larger counts the double rounding
of `count * 0.9` can push the split index one past the floor. -/
theorem train_test_split_correct
    (all_uids shuffled : List String)
    (hperm : shuffled.Perm all_uids) (hnodup : all_uids.Nodup)
    (hsize : all_uids.length ≤ 2 ^ 50) :
    List.Disjoint (train_uids shuffled) (test_uids shuffled) ∧
    train_uids shuffled ++ test_uids shuffled = shuffled ∧
    (train_uids shuffled ++ test_uids shuffled).Perm all_uids ∧
    (train_uids shuffled).length = 9 * all_uids.length / 10 ∧
    (test_uids shuffled).length
      = all_uids.length - 9 * all_uids.length / 10 := by
  have hlen : shuffled.length = all_uids.length := hperm.length_eq
  have hsn : shuffled.Nodup := hperm.symm.nodup hnodup
  have hidx := split_idx_eq shuffled.length (by omega)
  have hle : split_idx shuffled.length ≤ shuffled.length := by
    have hdd := Nat.div_mul_le_self (9 * shuffled.length) 10
    rw [hidx]
    omega
  refine ⟨?_, List.take_append_drop _ _, ?_, ?_, ?_⟩
  · exact List.disjoint_take_drop hsn le_rfl
  · have he : train_uids shuffled ++ test_uids shuffled = shuffled :=
      List.take_append_drop _ _
    rw [he]
    exact hperm
  · unfold train_uids
    rw [List.length_take, hidx, hlen]
    omega
  · unfold test_uids
    rw [List.length_drop, hidx, hlen]

/-- C3 witness: a three-element universe splits 2/1 after an explicit
shuffle. -/
theorem train_test_split_correct_witness :
    List.Disjoint (train_uids ["c", "a", "b"]) (test_uids ["c", "a", "b"]) ∧
    train_uids ["c", "a", "b"] ++ test_uids ["c", "a", "b"] = ["c", "a", "b"] ∧
    (train_uids ["c", "a", "b"] ++ test_uids ["c", "a", "b"]).Perm ["a", "b", "c"] ∧
    (train_uids ["c", "a", "b"]).length
      = 9 * (["a", "b", "c"] : List String).length / 10 ∧
    (test_uids ["c", "a", "b"]).length
      = (["a", "b", "c"] : List String).length
        - 9 * (["a", "b", "c"] : List String).length / 10 :=
  train_test_split_correct ["a", "b", "c"] ["c", "a", "b"]
    (by decide) (by decide) (by decide)

/-! ### scripts/Discarded/simple_filter.py — `simple_quality_filter` (lines 22-51)

String operations are modelled on the underlying character lists:
`endswith` as list-suffix, `lower()` as character-wise lowering (the
catalog paths are ASCII), `term in path` as contiguous-sublist search.
The catalog path table `object_paths.get(uid, "")` is abstracted as a
total lookup function, and the seeded random sample as the input UID
list. -/

/-- The fixed exclusion-term set of `simple_quality_filter`. -/
def exclusion_terms : List String :=
  ["test", "temp", "placeholder", "broken", "wip",
   "untextured", "lowpoly", "simple", "cube", "sphere",
   "plane", "default", "example"]

/-- Python `s.endswith(suffix)`. -/
def py_endswith (s suffix : String) : Bool :=
  suffix.data.isSuffixOf s.data

/-- Python `s.lower()` (character-wise, exact on ASCII paths). -/
def py_lower (s : String) : String :=
  ⟨s.data.map Char.toLower⟩

/-- Python's substring test `needle in hay` on character lists: some
suffix of `hay` starts with `needle`. -/
def listContainsSub (needle : List Char) : List Char → Bool
  | [] => needle.isEmpty
  | c :: rest => needle.isPrefixOf (c :: rest) || listContainsSub needle rest

/-- Python `needle in hay` on strings. -/
def strContainsSub (hay needle : String) : Bool :=
  listContainsSub needle.data hay.data

/-- `listContainsSub` decides contiguous-substring occurrence. -/
theorem listContainsSub_iff (needle : List Char) :
    ∀ hay : List Char,
      listContainsSub needle hay = true
        ↔ ∃ pre post, pre ++ needle ++ post = hay := by
  intro hay
  induction hay with
  | nil =>
      simp only [listContainsSub, List.isEmpty_iff]
      constructor
      · rintro rfl
        exact ⟨[], [], rfl⟩
      · rintro ⟨pre, post, h⟩
        rcases List.append_eq_nil.mp h with ⟨h1, h2⟩
        exact (List.append_eq_nil.mp h1).2
  | cons c rest ih =>
      simp only [listContainsSub, Bool.or_eq_true, ih, List.isPrefixOf_iff_prefix]
      constructor
      · rintro (⟨t, ht⟩ | ⟨pre, post, h⟩)
        · exact ⟨[], t, by simpa using ht⟩
        · exact ⟨c :: pre, post, by simp [← h]⟩
      · rintro ⟨pre, post, h⟩
        cases pre with
        | nil =>
            exact Or.inl ⟨post, by simpa using h⟩
        | cons c' pre' =>
            simp only [List.cons_append, List.cons.injEq] at h
            exact Or.inr ⟨pre', post, h.2⟩

/-- The body of the filter loop, checks in source order: empty path,
non-`.glb` extension, excluded term in the lowered path, short path.
`true` means the UID is appended to `filtered_uids`. -/
def passes_quality (path : String) : Bool :=
  if path = "" then false
  else if ¬ py_endswith path ".glb" = true then false
  else if exclusion_terms.any (fun t => strContainsSub (py_lower path) t) then false
  else if path.length < 10 then false
  else true

/-- `simple_quality_filter`: keep the sampled UIDs whose catalog path
passes every check; missing or failing paths are skipped, never raised. -/
def simple_quality_filter (object_paths : String → String)
    (sampled_uids : List String) : List String :=
  sampled_uids.filter (fun uid => passes_quality (object_paths uid))

/-- C4: every UID the filter outputs has a non-empty catalog path that
ends in `.glb`, contains no exclusion term case-insensitively (no term
occurs as a substring of the lowered path), and is at least 10 characters
long; and every sampled UID failing a check is skipped (absent from the
output) without error. -/
theorem filter_soundness (object_paths : String → String)
    (sampled_uids : List String) :
    (∀ uid ∈ simple_quality_filter object_paths sampled_uids,
      object_paths uid ≠ "" ∧
      (∃ pre, pre ++ ".glb".data = (object_paths uid).data) ∧
      (∀ t ∈ exclusion_terms,
        ¬ ∃ pre post, pre ++ t.data ++ post = (py_lower (object_paths uid)).data) ∧
      10 ≤ (object_paths uid).length) ∧
    (∀ uid ∈ sampled_uids, passes_quality (object_paths uid) = false →
      uid ∉ simple_quality_filter object_paths sampled_uids) := by
  constructor
  · intro uid hmem
    have h := (List.mem_filter.mp hmem).2
    unfold passes_quality at h
    split_ifs at h with h1 h2 h3 h4
    · push_neg at h2
      refine ⟨h1, ?_, ?_, by omega⟩
      · have hs : (".glb".data) <:+ (object_paths uid).data :=
          List.isSuffixOf_iff_suffix.mp h2
        obtain ⟨pre, hpre⟩ := hs
        exact ⟨pre, hpre⟩
      · intro t ht hocc
        apply h3
        rw [List.any_eq_true]
        refine ⟨t, ht, ?_⟩
        exact (listContainsSub_iff t.data _).mpr hocc
  · intro uid _ hfail hmem
    have h := (List.mem_filter.mp hmem).2
    rw [hfail] at h
    cases h

/-- C4 witness: the filter keeps a UID with a well-formed catalog path,
and that path provably satisfies every soundness check. -/
theorem filter_soundness_witness :
    "uid1" ∈ simple_quality_filter (fun _ => "objects/chair_model.glb") ["uid1"] ∧
    (("objects/chair_model.glb" : String) ≠ "" ∧
     (∃ pre, pre ++ ".glb".data = ("objects/chair_model.glb" : String).data) ∧
     (∀ t ∈ exclusion_terms,
       ¬ ∃ pre post, pre ++ t.data ++ post
         = (py_lower "objects/chair_model.glb").data) ∧
     10 ≤ ("objects/chair_model.glb" : String).length) :=
  ⟨by decide,
   (filter_soundness (fun _ => "objects/chair_model.glb") ["uid1"]).1
     "uid1" (by decide)⟩

/-! ### scripts/download_objaverse.py — `check_existing_renders` (lines 60-76)

A candidate output subdirectory is modelled by its file listing; the
output root by a list of `(directory name, listing)` pairs (only
subdirectories reach the check in the source).  `os.path.exists(dir +
"/cameras.json")` is membership of `"cameras.json"` in the listing. -/

/-- Python `f"{i:03d}"`: decimal, left-padded with zeros to width 3. -/
def pad3 (i : ℕ) : String :=
  let s := toString i
  if s.length = 1 then "00" ++ s
  else if s.length = 2 then "0" ++ s
  else s

/-- The completion test for one candidate subdirectory: at least 16
`.png` files and a `cameras.json` in the listing. -/
def render_complete (files : List String) : Bool :=
  decide (16 ≤ (files.filter (fun f => py_endswith f ".png")).length)
    && files.contains "cameras.json"

/-- `check_existing_renders`: names of the subdirectories that pass the
completion test. -/
def check_existing_renders (dirs : List (String × List String)) : List String :=
  (dirs.filter (fun d => render_complete d.2)).map Prod.fst

/-- A synthetic directory with exactly 16 qualifying `.png` files (the
pipeline's depth images) plus `cameras.json`. -/
def synthetic_complete_dir : List String :=
  (List.range 16).map (fun i => pad3 i ++ "_depth.png") ++ ["cameras.json"]

/-- The same directory missing `cameras.json`. -/
def synthetic_no_cameras_dir : List String :=
  (List.range 16).map (fun i => pad3 i ++ "_depth.png")

/-- A directory with only 15 qualifying images plus `cameras.json`. -/
def synthetic_15_dir : List String :=
  (List.range 15).map (fun i => pad3 i ++ "_depth.png") ++ ["cameras.json"]

/-- C5: the scanner marks a directory complete iff it has at least 16
files of the expected image extension and a `cameras.json`; a directory
with exactly 16 qualifying images and `cameras.json` is complete, and a
directory missing either condition is incomplete; completeness of an
entry is what puts its name in the scanner's output. -/
theorem completion_predicate :
    (∀ files : List String,
      render_complete files = true
        ↔ 16 ≤ (files.filter (fun f => py_endswith f ".png")).length ∧
          "cameras.json" ∈ files) ∧
    (∀ (dirs : List (String × List String)) (d : String × List String),
      d ∈ dirs → render_complete d.2 = true →
        d.1 ∈ check_existing_renders dirs) ∧
    (∀ (dirs : List (String × List String)) (name : String),
      name ∈ check_existing_renders dirs →
        ∃ d ∈ dirs, d.1 = name ∧ render_complete d.2 = true) ∧
    render_complete synthetic_complete_dir = true ∧
    render_complete synthetic_no_cameras_dir = false ∧
    render_complete synthetic_15_dir = false := by
  refine ⟨?_, ?_, ?_, by decide, by decide, by decide⟩
  · intro files
    simp [render_complete]
  · intro dirs d hd hc
    unfold check_existing_renders
    exact List.mem_map.mpr ⟨d, List.mem_filter.mpr ⟨hd, hc⟩, rfl⟩
  · intro dirs name hname
    unfold check_existing_renders at hname
    obtain ⟨d, hd, rfl⟩ := List.mem_map.mp hname
    have := List.mem_filter.mp hd
    exact ⟨d, this.1, rfl, this.2⟩

/-- C5 witness: a root holding one synthetic complete directory reports
that directory's name. -/
theorem completion_predicate_witness :
    ("obj1" : String) ∈ check_existing_renders [("obj1", synthetic_complete_dir)] :=
  completion_predicate.2.1 [("obj1", synthetic_complete_dir)]
    ("obj1", synthetic_complete_dir) (by decide) (by decide)

/-! ### scripts/blender_script.py — multi-view camera pipeline

Module-scope render settings: resolution 256×256 (lines 51-52); camera
lens 35 and sensor width 32 (`setup_camera`, lines 217-224).  Angles and
positions are real numbers; the intrinsics arithmetic is exact in double
precision (every intermediate is an integer or half-integer), so it is
modelled in ℚ.  The per-record `target`/`up` extrinsics are read back
from the host tool's constraint-resolved camera world matrix and are not
modelled; every other record field is transcribed below. -/

/-- The 16 MVD-Fusion azimuths (radians): two interleaved 8-point rings
at 45° spacing, the second offset by 22.5° (lines 66-71). -/
noncomputable def AZIMUTHS_16 : List ℝ :=
  [0.0, 0.7853981852531433, 1.5707963705062866, 2.356194496154785,
   3.1415927410125732, 3.9269907474517822, 4.71238899230957, 5.497786998748779,
   0.39269909262657166, 1.1780972480773926, 1.9634954929351807, 2.7488934993743896,
   3.5342917442321777, 4.319689750671387, 5.105088233947754, 5.890486240386963]

/-- The 16 MVD-Fusion elevations (radians): all ≈ 30° (lines 73-78). -/
noncomputable def ELEVATIONS_16 : List ℝ :=
  [0.5235987901687622, 0.5235987901687622, 0.5235987901687622, 0.5235987901687622,
   0.5235987901687622, 0.5235987901687622, 0.5235987901687622, 0.5235987901687622,
   0.5235987901687622, 0.5235987901687622, 0.5235987901687622, 0.5235987901687622,
   0.5235987901687622, 0.5235987901687622, 0.5235987901687622, 0.5235987901687622]

/-- `get_camera_position` (lines 227-232). -/
noncomputable def get_camera_position (azimuth elevation distance : ℝ) : ℝ × ℝ × ℝ :=
  (distance * Real.cos azimuth * Real.cos elevation,
   distance * Real.sin azimuth * Real.cos elevation,
   distance * Real.sin elevation)

/-- `render.resolution_x = 256` (line 51). -/
def resolution_x : ℚ := 256

/-- `render.resolution_y = 256` (line 52). -/
def resolution_y : ℚ := 256

/-- `cam.data.lens = 35` (line 219). -/
def focal_length : ℚ := 35

/-- `cam.data.sensor_width = 32` (line 220). -/
def sensor_width : ℚ := 32

/-- `sensor_height = sensor_width * (resolution_y / resolution_x)` (line 309). -/
def sensor_height : ℚ := sensor_width * (resolution_y / resolution_x)

/-- `f_x = (focal_length * resolution_x) / sensor_width` (line 312). -/
def f_x : ℚ := focal_length * resolution_x / sensor_width

/-- `f_y = (focal_length * resolution_y) / sensor_height` (line 313). -/
def f_y : ℚ := focal_length * resolution_y / sensor_height

/-- `c_x = resolution_x / 2` (line 316). -/
def c_x : ℚ := resolution_x / 2

/-- `c_y = resolution_y / 2` (line 317). -/
def c_y : ℚ := resolution_y / 2

/-- One element of the `camera_params` list built by
`save_camera_parameters_mvd` (lines 338-350), minus the host-derived
`target`/`up` fields. -/
structure CameraRecord where
  view_id : ℕ
  azimuth : ℝ
  elevation : ℝ
  camera_distance : ℝ
  position : ℝ × ℝ × ℝ
  focal_length : ℚ × ℚ
  principal_point : ℚ × ℚ
  image_size : ℚ × ℚ
  sensor_size : ℚ × ℚ

/-- `save_camera_parameters_mvd` (lines 302-355): one record per view
`i ∈ range(num_views)`, intrinsics computed once outside the loop. -/
noncomputable def save_camera_parameters_mvd (num_views : ℕ) (camera_dist : ℝ) :
    List CameraRecord :=
  (List.range num_views).map (fun i =>
    { view_id := i
      azimuth := AZIMUTHS_16.getD i 0
      elevation := ELEVATIONS_16.getD i 0
      camera_distance := camera_dist
      position := get_camera_position (AZIMUTHS_16.getD i 0) (ELEVATIONS_16.getD i 0)
        camera_dist
      focal_length := (f_x, f_y)
      principal_point := (c_x, c_y)
      image_size := (resolution_x, resolution_y)
      sensor_size := (sensor_width, sensor_height) })

/-- The files and metadata a successful `save_images` run (lines 235-299)
leaves in the per-asset `views` directory. -/
structure RenderOutput where
  rgb_files : List String
  depth_files : List String
  mask_files : List String
  metadata_files : List String
  camera_records : List CameraRecord

/-- `save_images` on a successful run: `num_views = min(args.num_images,
16)` (line 262); per view `i` the render pass plus the post-render rename
leave `{i:03d}_rgb.jpg`, `{i:03d}_depth.png` and `{i:03d}_mask.jpg`
(lines 274-295); then `save_camera_parameters_mvd` writes the single
`cameras.json` (lines 298, 352-354).  `args.num_images` is a CLI int, so
it ranges over ℤ; `range` of a non-positive bound is empty (`Int.toNat`). -/
noncomputable def save_images (num_images : ℤ) (camera_dist : ℝ) : RenderOutput :=
  let num_views : ℤ := min num_images 16
  let views := List.range num_views.toNat
  { rgb_files := views.map (fun i => pad3 i ++ "_rgb.jpg")
    depth_files := views.map (fun i => pad3 i ++ "_depth.png")
    mask_files := views.map (fun i => pad3 i ++ "_mask.jpg")
    metadata_files := ["cameras.json"]
    camera_records := save_camera_parameters_mvd num_views.toNat camera_dist }

/-- C1 (amended): for every successful run with `num_images ≥ 16` — which
includes the script's default of 64 — exactly 16 RGB, 16 depth and 16
mask files and one `cameras.json` exist, and the metadata holds exactly
16 records whose `view_id` values are `0..15` in order; in general a
successful run produces `min(num_images, 16)` views, not always 16. -/
theorem save_images_sixteen_views (num_images : ℤ) (camera_dist : ℝ)
    (h : 16 ≤ num_images) :
    (save_images num_images camera_dist).rgb_files.length = 16 ∧
    (save_images num_images camera_dist).depth_files.length = 16 ∧
    (save_images num_images camera_dist).mask_files.length = 16 ∧
    (save_images num_images camera_dist).metadata_files = ["cameras.json"] ∧
    (save_images num_images camera_dist).camera_records.map CameraRecord.view_id
      = List.range 16 := by
  have hmin : min num_images 16 = 16 := by omega
  unfold save_images
  rw [hmin]
  refine ⟨by simp, by simp, by simp, rfl, ?_⟩
  show (save_camera_parameters_mvd (16 : ℤ).toNat camera_dist).map CameraRecord.view_id
    = List.range 16
  unfold save_camera_parameters_mvd
  rw [List.map_map]
  show List.map (fun i : ℕ => i) (List.range 16) = List.range 16
  simp

/-- C1 witness: the default invocation `num_images = 64` yields the full
16-view output set. -/
theorem save_images_sixteen_views_witness :
    (16 : ℤ) ≤ 64 ∧
    ((save_images 64 1.5).rgb_files.length = 16 ∧
     (save_images 64 1.5).depth_files.length = 16 ∧
     (save_images 64 1.5).mask_files.length = 16 ∧
     (save_images 64 1.5).metadata_files = ["cameras.json"] ∧
     (save_images 64 1.5).camera_records.map CameraRecord.view_id
       = List.range 16) :=
  ⟨by decide, save_images_sixteen_views 64 1.5 (by decide)⟩

/-- C1 counterexample: `--num_images 1` is a successful run of
`save_images` that renders exactly one view, so it does not produce 16
RGB files. -/
theorem save_images_single_view_counterexample :
    (save_images 1 1.5).rgb_files.length = 1 ∧
    ¬ (save_images 1 1.5).rgb_files.length = 16 := by
  have hmin : min (1 : ℤ) 16 = 1 := by omega
  unfold save_images
  rw [hmin]
  refine ⟨by simp, by simp⟩

/-! Numeric facts for view 0: azimuth 0, elevation 0.5235987901687622
(the double approximation of π/6). -/

theorem abs_sin_sub_sin_le (x y : ℝ) :
    |Real.sin x - Real.sin y| ≤ |x - y| := by
  rw [Real.sin_sub_sin, abs_mul, abs_mul]
  have h1 : |Real.sin ((x - y) / 2)| ≤ |x - y| / 2 := by
    have : |Real.sin ((x - y) / 2)| ≤ |(x - y) / 2| := Real.abs_sin_le_abs
    rwa [abs_div, abs_two] at this
  have h2 : |Real.cos ((x + y) / 2)| ≤ 1 := Real.abs_cos_le_one _
  have h5 : (0 : ℝ) ≤ |Real.sin ((x - y) / 2)| := abs_nonneg _
  have h6 : (0 : ℝ) ≤ |Real.cos ((x + y) / 2)| := abs_nonneg _
  rw [abs_two]
  nlinarith

theorem abs_cos_sub_cos_le (x y : ℝ) :
    |Real.cos x - Real.cos y| ≤ |x - y| := by
  rw [Real.cos_sub_cos, abs_mul, abs_mul]
  have h1 : |Real.sin ((x - y) / 2)| ≤ |x - y| / 2 := by
    have : |Real.sin ((x - y) / 2)| ≤ |(x - y) / 2| := Real.abs_sin_le_abs
    rwa [abs_div, abs_two] at this
  have h2 : |Real.sin ((x + y) / 2)| ≤ 1 := Real.abs_sin_le_one _
  have h5 : (0 : ℝ) ≤ |Real.sin ((x - y) / 2)| := abs_nonneg _
  have h6 : (0 : ℝ) ≤ |Real.sin ((x + y) / 2)| := abs_nonneg _
  have h7 : |(-2 : ℝ)| = 2 := by norm_num
  rw [h7]
  nlinarith

theorem elevation0_near_pi_div_six :
    |(0.5235987901687622 : ℝ) - Real.pi / 6| ≤ 0.00000013 := by
  have h1 := Real.pi_gt_d6
  have h2 := Real.pi_lt_d6
  rw [abs_le]
  constructor <;> [linarith; linarith]

theorem sin_elevation0_near_half :
    |Real.sin 0.5235987901687622 - 1 / 2| ≤ 0.00000013 := by
  calc |Real.sin 0.5235987901687622 - 1 / 2|
      = |Real.sin 0.5235987901687622 - Real.sin (Real.pi / 6)| := by
        rw [Real.sin_pi_div_six]
    _ ≤ |(0.5235987901687622 : ℝ) - Real.pi / 6| := abs_sin_sub_sin_le _ _
    _ ≤ 0.00000013 := elevation0_near_pi_div_six

theorem cos_elevation0_near_sqrt3_half :
    |Real.cos 0.5235987901687622 - Real.sqrt 3 / 2| ≤ 0.00000013 := by
  calc |Real.cos 0.5235987901687622 - Real.sqrt 3 / 2|
      = |Real.cos 0.5235987901687622 - Real.cos (Real.pi / 6)| := by
        rw [Real.cos_pi_div_six]
    _ ≤ |(0.5235987901687622 : ℝ) - Real.pi / 6| := abs_cos_sub_cos_le _ _
    _ ≤ 0.00000013 := elevation0_near_pi_div_six

theorem sqrt3_bounds :
    (1.7320508 : ℝ) < Real.sqrt 3 ∧ Real.sqrt 3 < 1.7320509 := by
  have hsq := Real.sq_sqrt (show (0 : ℝ) ≤ 3 by norm_num)
  have hnn := Real.sqrt_nonneg 3
  constructor <;> nlinarith

/-- C6: the camera position equals
`distance · (cos az · cos el, sin az · cos el, sin el)` for every azimuth,
elevation and distance, and at view 0 of the preset tables (azimuth 0,
elevation 0.5235987901687622, distance 1.5) it is within 0.001 of
(1.299, 0, 0.75) — the y-coordinate is exactly 0. -/
theorem camera_position_formula :
    (∀ az el d : ℝ, get_camera_position az el d
      = (d * Real.cos az * Real.cos el,
         d * Real.sin az * Real.cos el,
         d * Real.sin el)) ∧
    AZIMUTHS_16.getD 0 0 = 0 ∧
    ELEVATIONS_16.getD 0 0 = 0.5235987901687622 ∧
    |(get_camera_position 0 0.5235987901687622 1.5).1 - 1.299| < 0.001 ∧
    (get_camera_position 0 0.5235987901687622 1.5).2.1 = 0 ∧
    |(get_camera_position 0 0.5235987901687622 1.5).2.2 - 0.75| < 0.001 := by
  have hc := abs_le.mp cos_elevation0_near_sqrt3_half
  have hs := abs_le.mp sin_elevation0_near_half
  have h3 := sqrt3_bounds
  refine ⟨fun az el d => rfl, by simp [AZIMUTHS_16, List.getD_cons_zero]; norm_num,
    by simp [ELEVATIONS_16, List.getD_cons_zero], ?_, ?_, ?_⟩
  · show |1.5 * Real.cos 0 * Real.cos 0.5235987901687622 - 1.299| < 0.001
    rw [Real.cos_zero, mul_one, abs_lt]
    constructor <;> nlinarith [hc.1, hc.2, h3.1, h3.2]
  · show 1.5 * Real.sin 0 * Real.cos 0.5235987901687622 = 0
    rw [Real.sin_zero, mul_zero, zero_mul]
  · show |1.5 * Real.sin 0.5235987901687622 - 0.75| < 0.001
    rw [abs_lt]
    constructor <;> [linarith [hs.1]; linarith [hs.2]]

/-- C7: the serialized intrinsics follow the pixel-focal-length formulas
with `sensor_height = sensor_width · (resolution_y / resolution_x)` and a
centered principal point; at the script's fixed 256×256 resolution,
sensor width 32 and focal length 35 they evaluate to
`f_x = f_y = 280` and principal point `(128, 128)`, identical in every
one of the 16 metadata records. -/
theorem intrinsics_formula :
    sensor_height = sensor_width * (resolution_y / resolution_x) ∧
    f_x = focal_length * resolution_x / sensor_width ∧
    f_y = focal_length * resolution_y / sensor_height ∧
    c_x = resolution_x / 2 ∧ c_y = resolution_y / 2 ∧
    f_x = 280 ∧ f_y = 280 ∧ c_x = 128 ∧ c_y = 128 ∧
    (∀ d : ℝ,
      (save_camera_parameters_mvd 16 d).map CameraRecord.focal_length
        = List.replicate 16 (f_x, f_y) ∧
      (save_camera_parameters_mvd 16 d).map CameraRecord.principal_point
        = List.replicate 16 (c_x, c_y)) := by
  refine ⟨rfl, rfl, rfl, rfl, rfl,
    by norm_num [f_x, focal_length, resolution_x, sensor_width],
    by norm_num [f_y, focal_length, resolution_y, sensor_height, sensor_width,
      resolution_x],
    by norm_num [c_x, resolution_x],
    by norm_num [c_y, resolution_y],
    fun d => ⟨?_, ?_⟩⟩
  · unfold save_camera_parameters_mvd
    rw [List.map_map]
    show List.map (fun _ : ℕ => (f_x, f_y)) (List.range 16) = _
    rw [List.map_const', List.length_range]
  · unfold save_camera_parameters_mvd
    rw [List.map_map]
    show List.map (fun _ : ℕ => (c_x, c_y)) (List.range 16) = _
    rw [List.map_const', List.length_range]

/-! ### scripts/blender_script.py — `load_object` (lines 165-172) and the
top-level `try/except` (lines 369-385)

`load_object` dispatches on the file extension and raises
`ValueError(f"Unsupported file type: {object_path}")` for anything that
is neither `.glb` nor `.fbx` — the spec's `UnsupportedFormat` condition.
The `__main__` block wraps the whole per-asset pipeline in `try/except
Exception`, printing the error and traceback, so the process ends
normally and an external batch driver proceeds to the next asset. -/

/-- `load_object`: `Except.error` models the raised `ValueError`. -/
def load_object (object_path : String) : Except String Unit :=
  if py_endswith object_path ".glb" then Except.ok ()
  else if py_endswith object_path ".fbx" then Except.ok ()
  else Except.error ("Unsupported file type: " ++ object_path)

/-- Outcome of one script invocation as seen by the caller. -/
inductive MainOutcome
  | finished
  | loggedFailure (msg : String)
deriving DecidableEq

/-- The `__main__` `try/except`: an exception escaping the per-asset
pipeline (here: the `load_object` dispatch, the pipeline's fallible step
modelled on the script side) is logged, not re-raised. -/
def main_render (object_path : String) : MainOutcome :=
  match load_object object_path with
  | Except.ok _ => MainOutcome.finished
  | Except.error e => MainOutcome.loggedFailure e

/-- C8: `load_object` raises the `UnsupportedFormat` error exactly when
the path ends in neither `.glb` nor `.fbx`, and the top-level handler
turns that error into a logged failure of the single-asset invocation
rather than an escaping exception. -/
theorem unsupported_format_condition (object_path : String) :
    ((∃ e, load_object object_path = Except.error e)
      ↔ ¬ (py_endswith object_path ".glb" = true ∨
           py_endswith object_path ".fbx" = true)) ∧
    (∀ e, load_object object_path = Except.error e →
      e = "Unsupported file type: " ++ object_path ∧
      main_render object_path = MainOutcome.loggedFailure e) := by
  unfold main_render load_object
  split_ifs with h1 h2
  · simp [h1]
  · simp [h2]
  · simp [h1, h2]

/-- C8 witness: a `.obj` asset fails with the `UnsupportedFormat`
message, and the invocation ends as a logged failure. -/
theorem unsupported_format_condition_witness :
    load_object "model.obj" = Except.error ("Unsupported file type: " ++ "model.obj") ∧
    ("Unsupported file type: " ++ "model.obj"
        = "Unsupported file type: " ++ "model.obj" ∧
      main_render "model.obj"
        = MainOutcome.loggedFailure ("Unsupported file type: " ++ "model.obj")) :=
  ⟨rfl,
   (unsupported_format_condition "model.obj").2
     ("Unsupported file type: " ++ "model.obj") rfl⟩

/-! ### scripts/blender_script.py — `download_object` (lines 357-366)

The file system is a list of existing paths.  `urllib.request.urlretrieve`
writes the temporary path (on a failed transfer it may leave a partial
temporary file and raises, so `os.rename` never runs); on success
`os.rename` atomically moves the temporary file onto the canonical
path. -/

/-- `uid = object_url.split("/")[-1].split(".")[0]` (line 359). -/
def uid_of_url (url : String) : String :=
  (((url.splitOn "/").getLastD "").splitOn ".").headD ""

/-- `tmp_local_path = os.path.join("tmp-objects", f"{uid}.glb.tmp")`. -/
def tmp_local_path (uid : String) : String :=
  "tmp-objects/" ++ uid ++ ".glb.tmp"

/-- `local_path = os.path.join("tmp-objects", f"{uid}.glb")`. -/
def local_path (uid : String) : String :=
  "tmp-objects/" ++ uid ++ ".glb"

/-- The successive file-system states of one `download_object` call:
initial; after `urlretrieve` touched the temporary path; on success,
after `os.rename` replaced it with the canonical path. -/
def download_object_states (fs : List String) (url : String) (net_ok : Bool) :
    List (List String) :=
  let uid := uid_of_url url
  let s1 := tmp_local_path uid :: fs
  if net_ok then
    [fs, s1, local_path uid :: s1.erase (tmp_local_path uid)]
  else
    [fs, s1]

theorem tmp_ne_local (uid : String) : tmp_local_path uid ≠ local_path uid := by
  intro h
  have hlen := congrArg String.length h
  have h1 : ("tmp-objects/" : String).length = 12 := rfl
  have h2 : (".glb.tmp" : String).length = 8 := rfl
  have h3 : (".glb" : String).length = 4 := rfl
  rw [tmp_local_path, local_path, String.length_append, String.length_append,
    String.length_append, String.length_append, h1, h2, h3] at hlen
  omega

/-- C9: with the canonical local path absent initially, it exists only in
the final state of a completed download; a failed transfer leaves every
traversed state (at most the partial temporary file) without the
canonical path. -/
theorem download_write_temp_then_rename (fs : List String) (url : String)
    (net_ok : Bool) (hfresh : local_path (uid_of_url url) ∉ fs) :
    (net_ok = true →
      local_path (uid_of_url url)
          ∈ (download_object_states fs url net_ok).getLastD [] ∧
      ∀ s ∈ (download_object_states fs url net_ok).dropLast,
        local_path (uid_of_url url) ∉ s) ∧
    (net_ok = false →
      ∀ s ∈ download_object_states fs url net_ok,
        local_path (uid_of_url url) ∉ s) := by
  have hne := tmp_ne_local (uid_of_url url)
  constructor
  · intro hok
    subst hok
    have hstates : download_object_states fs url true
        = [fs, tmp_local_path (uid_of_url url) :: fs,
           local_path (uid_of_url url)
             :: (tmp_local_path (uid_of_url url) :: fs).erase
                  (tmp_local_path (uid_of_url url))] := rfl
    rw [hstates]
    constructor
    · exact List.mem_cons_self _ _
    · intro s hs
      have hdl : ([fs, tmp_local_path (uid_of_url url) :: fs,
          local_path (uid_of_url url)
            :: (tmp_local_path (uid_of_url url) :: fs).erase
                 (tmp_local_path (uid_of_url url))] : List (List String)).dropLast
          = [fs, tmp_local_path (uid_of_url url) :: fs] := rfl
      rw [hdl] at hs
      simp only [List.mem_cons, List.not_mem_nil, or_false] at hs
      rcases hs with rfl | rfl
      · exact hfresh
      · intro hmem
        rcases List.mem_cons.mp hmem with h | h
        · exact hne h.symm
        · exact hfresh h
  · intro hfail
    subst hfail
    have hstates : download_object_states fs url false
        = [fs, tmp_local_path (uid_of_url url) :: fs] := rfl
    rw [hstates]
    intro s hs
    simp only [List.mem_cons, List.not_mem_nil, or_false] at hs
    rcases hs with rfl | rfl
    · exact hfresh
    · intro hmem
      rcases List.mem_cons.mp hmem with h | h
      · exact hne h.symm
      · exact hfresh h

/-- C9 witness: a concrete successful download into an empty directory
places the canonical path only in the final state. -/
theorem download_write_temp_then_rename_witness :
    (true = true →
      local_path (uid_of_url "http://host/ab.glb")
          ∈ (download_object_states [] "http://host/ab.glb" true).getLastD [] ∧
      ∀ s ∈ (download_object_states [] "http://host/ab.glb" true).dropLast,
        local_path (uid_of_url "http://host/ab.glb") ∉ s) ∧
    (true = false →
      ∀ s ∈ download_object_states [] "http://host/ab.glb" true,
        local_path (uid_of_url "http://host/ab.glb") ∉ s) :=
  download_write_temp_then_rename [] "http://host/ab.glb" true (by decide)

end ObjaverseRendering
